import Mathlib

/-!
Shallow embedding of the hacking-detection program `strauchm_homework2.cpp`.

The program scans an authentication log: it loads a set of authorized users
and a set of banned IPs, skips an HTTP-style header block, and classifies each
data line.  The engine keeps a `flagged` map (user → bool) and a `log` map
(user → list of timestamps) and applies, in order: an authorized-user
substring check, a banned-IP substring check, an already-flagged check, and a
frequency check over the per-user timestamp history.

Maps (`std::unordered_map`) are embedded as functions into `Option`; the two
lookup files are embedded as lists of their tokens (`Config`); the line stream
is embedded as a `List String`; `std::string::substr`'s `out_of_range`
exception is embedded as `Option.none` propagating out of per-line processing.
Timestamps are `Int` (C++ `long`).
-/

namespace HackDetect

/-! ## String primitives (models of `std::string` operations) -/

/-- Model of `std::string::find(needle)`: index of the first occurrence of
`needle` in `hay`, or `none` for `npos`. -/
def listFind? (hay needle : List Char) : Option Nat :=
  match hay with
  | [] => if needle = [] then some 0 else none
  | _ :: t =>
    if needle.isPrefixOf hay then some 0
    else (listFind? t needle).map (· + 1)

/-- Model of `line.find(s) != std::string::npos`: substring containment. -/
def strContains (hay needle : String) : Bool :=
  (listFind? hay.toList needle.toList).isSome

/-- Model of `s.substr(0, n)` (never throws for position 0): first `n`
characters of `s`. -/
def strTake (s : String) (n : Nat) : String :=
  String.mk (s.toList.take n)

/-- Model of `s.substr(pos, count)`: `none` models the `std::out_of_range`
exception raised when `pos` exceeds the length of `s`. -/
def csubstr (s : String) (pos count : Nat) : Option String :=
  if s.toList.length < pos then none
  else some (String.mk ((s.toList.drop pos).take count))

/-! ## Timestamp parsing (`toSeconds`)

`toSeconds` in the source initializes a `struct tm` whose fields are all zero
except `tm_year = year - 1900`, runs glibc `strptime` with the format
`"%B %d %H:%M:%S"` ignoring its result (so on a partial parse the fields read
so far are kept and the rest stay zero), and converts with `mktime`.
`strptimeModel`/`mktimeModel` below model those two libc calls for the C
locale, with `TZ=UTC` and `tm_isdst = 0`. -/

/-- Fields of `struct tm` that the format `"%B %d %H:%M:%S"` can fill.
All fields start at zero (from the aggregate initializer in the source). -/
structure Tm where
  mon : Nat
  mday : Nat
  hour : Nat
  min : Nat
  sec : Nat
deriving Repr, DecidableEq

/-- Case-insensitive prefix match: if `needle` is a prefix of `cs` ignoring
case, return the rest of `cs` (glibc month-name matching). -/
def ciPrefix : List Char → List Char → Option (List Char)
  | [], cs => some cs
  | _ :: _, [] => none
  | n :: ns, c :: cs => if n.toLower = c.toLower then ciPrefix ns cs else none

/-- Full and abbreviated month names, in `tm_mon` order, as tried by glibc
`strptime` for `%B`. -/
def monthTable : List (String × String) :=
  [("January", "Jan"), ("February", "Feb"), ("March", "Mar"),
   ("April", "Apr"), ("May", "May"), ("June", "Jun"),
   ("July", "Jul"), ("August", "Aug"), ("September", "Sep"),
   ("October", "Oct"), ("November", "Nov"), ("December", "Dec")]

/-- Try each month in order, full name first then abbreviation, returning the
month index and the unconsumed input. -/
def parseMonthGo : Nat → List (String × String) → List Char →
    Option (Nat × List Char)
  | _, [], _ => none
  | i, (full, ab) :: rest, cs =>
    match ciPrefix full.toList cs with
    | some r => some (i, r)
    | none =>
      match ciPrefix ab.toList cs with
      | some r => some (i, r)
      | none => parseMonthGo (i + 1) rest cs

/-- Model of `%B`: parse a month name. -/
def parseMonth (cs : List Char) : Option (Nat × List Char) :=
  parseMonthGo 0 monthTable cs

/-- A whitespace directive in a `strptime` format: skip any run of
whitespace. -/
def skipWS : List Char → List Char
  | [] => []
  | c :: cs => if c.isWhitespace then skipWS cs else c :: cs

/-- Model of a 2-digit numeric directive (`%d`, `%H`, `%M`, `%S`): one or two
digits, no whitespace skipping, `none` if the first character is not a
digit. -/
def parseNum2 (cs : List Char) : Option (Nat × List Char) :=
  match cs with
  | [] => none
  | c :: rest =>
    if c.isDigit then
      match rest with
      | d :: rest2 =>
        if d.isDigit then some ((c.toNat - 48) * 10 + (d.toNat - 48), rest2)
        else some (c.toNat - 48, rest)
      | [] => some (c.toNat - 48, [])
    else none

/-- The literal `':'` of the format: it must match the next character
exactly. -/
def expectColon : List Char → Option (List Char)
  | [] => none
  | c :: r => if c = ':' then some r else none

/-- Model of `strptime(input, "%B %d %H:%M:%S", &tm)` on a zero-initialized
`tm`: fields are filled left to right and a failure leaves the remaining
fields zero (the source ignores the return value of `strptime`). -/
def strptimeModel (cs : List Char) : Tm :=
  match parseMonth cs with
  | none => ⟨0, 0, 0, 0, 0⟩
  | some (mon, r1) =>
    match parseNum2 (skipWS r1) with
    | none => ⟨mon, 0, 0, 0, 0⟩
    | some (d, r2) =>
      match parseNum2 (skipWS r2) with
      | none => ⟨mon, d, 0, 0, 0⟩
      | some (hh, r3) =>
        match expectColon r3 with
        | none => ⟨mon, d, hh, 0, 0⟩
        | some r4 =>
          match parseNum2 r4 with
          | none => ⟨mon, d, hh, 0, 0⟩
          | some (mi, r5) =>
            match expectColon r5 with
            | none => ⟨mon, d, hh, mi, 0⟩
            | some r6 =>
              match parseNum2 r6 with
              | none => ⟨mon, d, hh, mi, 0⟩
              | some (ss, _) => ⟨mon, d, hh, mi, ss⟩

/-- Number of leap years in `[1, n]` (Gregorian). -/
def leapCount (n : Int) : Int :=
  n.fdiv 4 - n.fdiv 100 + n.fdiv 400

/-- Days from 1970-01-01 to the first day of year `y`. -/
def daysSinceEpochYear (y : Int) : Int :=
  365 * (y - 1970) + leapCount (y - 1) - leapCount 1969

/-- Gregorian leap-year test. -/
def isLeapYear (y : Int) : Bool :=
  (y % 4 = 0 && y % 100 ≠ 0) || y % 400 = 0

/-- Days in the year before the first day of month `m` (0-based). -/
def daysBeforeMonth (leap : Bool) (m : Nat) : Nat :=
  (if leap then [0, 31, 60, 91, 121, 152, 182, 213, 244, 274, 305, 335]
   else [0, 31, 59, 90, 120, 151, 181, 212, 243, 273, 304, 334]).getD m 0

/-- Model of `mktime` with `TZ=UTC` and `tm_isdst = 0`, for `tm_mon` in
`0..11`: out-of-range `mday`/`hour`/`min`/`sec` are normalized linearly
(`tm_mday = 0` is the day before the first of the month, as `mktime` does). -/
def mktimeModel (y : Int) (mon mday hour min sec : Nat) : Int :=
  (daysSinceEpochYear y + (daysBeforeMonth (isLeapYear y) mon : Int)
      + (mday : Int) - 1) * 86400
    + (hour : Int) * 3600 + (min : Int) * 60 + (sec : Int)

/-- `toSeconds` from the source: parse a `"Month day HH:MM:SS"` timestamp
with `strptime` and convert with `mktime`, assuming year 2021 by default. -/
def toSeconds (timestamp : String) (year : Int := 2021) : Int :=
  let tm := strptimeModel timestamp.toList
  mktimeModel year tm.mon tm.mday tm.hour tm.min tm.sec

/-! ## Engine data model -/

/-- The two lookup files, loaded by `loadLookup` into `LookupMap`s whose
values are all `true`; only the keys matter, so each is a list of tokens. -/
structure Config where
  authUser : List String
  banIP : List String

/-- `LookupMap flagged` from `process`: user → already-flagged bool,
`none` for an absent key. -/
def FlagMap : Type := String → Option Bool

/-- `LoginTimes log` from `process`: user → timestamps, `none` for an
absent key. -/
def Log : Type := String → Option (List Int)

/-- `map[key] = v` on a `FlagMap`. -/
def flagUpdate (f : FlagMap) (user : String) (v : Bool) : FlagMap :=
  fun u => if u = user then some v else f u

/-- `map[key] = v` on a `Log`. -/
def logUpdate (log : Log) (user : String) (v : List Int) : Log :=
  fun u => if u = user then some v else log u

/-- `isAuth` from the source: some authorized-user token occurs in the
line. -/
def isAuth (line : String) (authUser : List String) : Bool :=
  authUser.any (fun e => strContains line e)

/-- `isBand` from the source: some banned-IP token occurs in the line. -/
def isBand (line : String) (banIP : List String) : Bool :=
  banIP.any (fun e => strContains line e)

/-- `isFlag` from the source: an unseen user is inserted with value `false`
and reported unflagged; a present user is reported flagged exactly when the
stored value is `true`.  Returns the result and the updated map. -/
def isFlag (user : String) (flagged : FlagMap) : Bool × FlagMap :=
  match flagged user with
  | none => (false, flagUpdate flagged user false)
  | some b => (b, flagged)

/-! ## Frequency check -/

/-- The loop of `checkLogHelper`.  `fuel` bounds the number of iterations:
the C++ loop index `i` increases by one per iteration and `temp` never grows,
so `temp.length` iterations always suffice; the fuel-exhausted arm coincides
with the loop-exit result.  One iteration: if a pair `(i, i+1)` exists and is
within 20 seconds on a "Failed" line, increment `check`; otherwise collapse
`temp` (and the stored history) to the single most recent timestamp and reset
`check`; then, when `check` exceeds 2, erase the oldest entry and report a
breach. -/
def checkLogHelperGo (user line : String) :
    Nat → Nat → Nat → List Int → Log → Bool × Log
  | 0, _, _, _, log => (false, log)
  | fuel + 1, i, check, temp, log =>
    if i < temp.length then
      if i + 1 < temp.length then
        if (temp.getD (i + 1) 0 - temp.getD i 0).natAbs < 20
            ∧ strContains line "Failed" = true then
          if check + 1 > 2 then (true, logUpdate log user (temp.drop 1))
          else checkLogHelperGo user line fuel (i + 1) (check + 1) temp log
        else
          checkLogHelperGo user line fuel (i + 1) 0 [temp.getLastD 0]
            (logUpdate log user [temp.getLastD 0])
      else
        if check > 2 then (true, logUpdate log user (temp.drop 1))
        else checkLogHelperGo user line fuel (i + 1) check temp log
    else (false, log)

/-- `checkLogHelper` from the source: scan `temp` (a copy of the user's
history) pairwise starting at index 0 with the counter at 0. -/
def checkLogHelper (temp : List Int) (line : String) (log : Log)
    (user : String) : Bool × Log :=
  checkLogHelperGo user line temp.length 0 0 temp log

/-- `checkLog` from the source: convert the first 14 characters of the line
to seconds, append to the user's history (creating it if absent), and run the
helper once the history has at least 3 entries. -/
def checkLog (line : String) (log : Log) (user : String) : Bool × Log :=
  let time := toSeconds (strTake line 14)
  match log user with
  | none => (false, logUpdate log user [time])
  | some prev =>
    let temp := prev ++ [time]
    let log' := logUpdate log user temp
    if temp.length < 3 then (false, log')
    else checkLogHelperGo user line temp.length 0 0 temp log'

/-! ## Per-line processing (`process`) -/

/-- Classification of one line, named as in the specification. -/
inductive Outcome where
  | Authorized
  | BannedIP
  | AlreadyFlagged
  | FrequencyBreach
  | Benign
deriving Repr, DecidableEq

/-- `processHelper` from the source: the message lines written for each
reason, and the returned increment `1`. -/
def processHelper (reason : Nat) (line : String) (hackAtt lineCount : Nat) :
    List String × Nat :=
  (if reason = 1 then ["Hacking due to banned IP. Line: " ++ line]
   else if reason = 2 then ["Hacking due to frequency. Line: " ++ line]
   else if reason = 3 then
     ["Processed " ++ toString lineCount ++ " lines. Found "
        ++ toString hackAtt ++ " possible hacking attempts."]
   else [], 1)

/-- The summary text printed by `processHelper` for reason 3. -/
def summaryText (lineCount hackAtt : Nat) : String :=
  "Processed " ++ toString lineCount ++ " lines. Found "
    ++ toString hackAtt ++ " possible hacking attempts."

/-- Mutable state of `process`: the flagged map, the login history, the two
counters, and the text written to the output stream. -/
structure EngineState where
  flagged : FlagMap
  log : Log
  lineCount : Nat
  hackAtt : Nat
  output : List String

/-- The state `process` starts from: empty maps, zero counters, no output. -/
def initState : EngineState :=
  { flagged := fun _ => none, log := fun _ => none,
    lineCount := 0, hackAtt := 0, output := [] }

/-- Start index of the user field: `int temp = line.find("sshd")` narrows
`npos` to `-1`, and the user is read from `temp + 5`. -/
def userStart (line : String) : Nat :=
  match listFind? line.toList "sshd".toList with
  | some p => p + 5
  | none => 4

/-- `user = line.substr(line.find("sshd") + 5, 5)` from `process`;
`none` models the `std::out_of_range` exception. -/
def extractUser (line : String) : Option String :=
  csubstr line (userStart line) 5

/-- One iteration of the data loop of `process`: count the line, extract the
user (an exception aborts processing), then try the four rules in order.
Returns the outcome (named as in the specification) and the new state. -/
def processLine (cfg : Config) (st : EngineState) (line : String) :
    Option (Outcome × EngineState) :=
  let st1 := { st with lineCount := st.lineCount + 1 }
  match extractUser line with
  | none => none
  | some user =>
    if isAuth line cfg.authUser then
      some (Outcome.Authorized, st1)
    else if isBand line cfg.banIP then
      let r := processHelper 1 line 0 0
      some (Outcome.BannedIP,
        { st1 with hackAtt := st1.hackAtt + r.2, output := st1.output ++ r.1 })
    else
      let f := isFlag user st1.flagged
      let st2 := { st1 with flagged := f.2 }
      if f.1 then
        let r := processHelper 1 line 0 0
        some (Outcome.AlreadyFlagged,
          { st2 with hackAtt := st2.hackAtt + r.2,
                     output := st2.output ++ r.1 })
      else
        let c := checkLog line st2.log user
        let st3 := { st2 with log := c.2 }
        if c.1 then
          let r := processHelper 2 line 0 0
          some (Outcome.FrequencyBreach,
            { st3 with hackAtt := st3.hackAtt + r.2,
                       output := st3.output ++ r.1 })
        else
          some (Outcome.Benign, st3)

/-- The data loop of `process`: lines are consumed until the stream ends or
an empty line is read; the classification outcomes are collected. -/
def processData (cfg : Config) : List String → EngineState →
    Option (List Outcome × EngineState)
  | [], st => some ([], st)
  | line :: rest, st =>
    if line = "" then some ([], st)
    else
      match processLine cfg st line with
      | none => none
      | some (o, st') =>
        match processData cfg rest st' with
        | none => none
        | some (os, st'') => some (o :: os, st'')

/-- The header loop of `process`: discard lines until a line that is empty or
`"\r"` (that line is consumed too) or the end of the stream. -/
def dropHeader : List String → List String
  | [] => []
  | h :: t => if h = "" ∨ h = "\r" then t else dropHeader t

/-- `process` from the source, over a stream given as a list of lines and a
configuration holding the two loaded lookup files: skip the header, run the
data loop, then write the summary line (the line argument of the reason-3
`processHelper` call is an unused placeholder). -/
def process (cfg : Config) (input : List String) :
    Option (List Outcome × EngineState) :=
  match processData cfg (dropHeader input) initState with
  | none => none
  | some (os, st) =>
    let r := processHelper 3 "" st.hackAtt st.lineCount
    some (os, { st with output := st.output ++ r.1 })

/-! ## Concrete inputs used to instantiate the theorems

With a single-digit day the 14-character prefix taken by `checkLog` is the
complete timestamp, so the parsed seconds are exact.  The user field of these
lines (5 characters after `"sshd"` plus 5) is `"1111]"`. -/

/-- A failed login for user field `"1111]"` at second 0 of its minute. -/
def failLine1 : String :=
  "Jun 1 03:32:00 host sshd[1111]: Failed password for user root"

/-- The same failed login 5 seconds later. -/
def failLine2 : String :=
  "Jun 1 03:32:05 host sshd[1111]: Failed password for user root"

/-- The same failed login 10 seconds after the first. -/
def failLine3 : String :=
  "Jun 1 03:32:10 host sshd[1111]: Failed password for user root"

/-- Empty lookup files: no authorized users, no banned IPs. -/
def noCfg : Config := ⟨[], []⟩

/-- Lookup files whose authorized-user token `"root"` and banned-IP token
`"1111"` both occur in the `failLine` lines. -/
def authCfg : Config := ⟨["root"], ["1111"]⟩

/-- A header line, the header-ending blank line, then the three failed
logins of the window-threshold scenario and a fourth identical line. -/
def traceC1 : List String :=
  ["HTTP/1.1 200 OK", "", failLine1, failLine2, failLine3, failLine3]

/-- The window-threshold scenario followed by one more identical line for
the same user. -/
def traceC2 : List String :=
  ["HTTP/1.1 200 OK", "", failLine1, failLine2, failLine3, failLine3,
   failLine3]

/-- A login-history map holding `[0, 5, 10, 10]` for user `"u"`. -/
def logW : Log := logUpdate (fun _ => none) "u" [0, 5, 10, 10]

/-- The hacking outcomes of the specification: the classifications counted
by the hacking-attempt counter. -/
def isHackOutcome : Outcome → Bool
  | Outcome.BannedIP => true
  | Outcome.AlreadyFlagged => true
  | Outcome.FrequencyBreach => true
  | _ => false

/-- `p` is a prefix of the text of `s`. -/
def strStartsWith (s p : String) : Bool :=
  p.toList.isPrefixOf s.toList

/-- The two decimal digits of `n < 100`, as written in a log timestamp. -/
def twoDigits (n : Nat) : List Char :=
  [Char.ofNat (48 + n / 10), Char.ofNat (48 + n % 10)]

/-- The text after the month name in a well-formed timestamp
`"Mon DD HH:MM:SS"`. -/
def stampTail (day hour minute sec : Nat) : List Char :=
  ' ' :: (twoDigits day ++ ' ' :: (twoDigits hour
    ++ ':' :: (twoDigits minute ++ ':' :: twoDigits sec)))

/-- A well-formed fixed-width timestamp `"Mon DD HH:MM:SS"`: 3-letter month
abbreviation, 2-digit day, 24-hour clock. -/
def stampChars (mon day hour minute sec : Nat) : List Char :=
  (monthTable.getD mon ("", "")).2.toList ++ stampTail day hour minute sec

/-- A single-data-line stream: header line, blank separator, one failed
login. -/
def linesW : List String := ["HTTP/1.1 200 OK", "", failLine1]

/-- The final engine state of the `linesW` run. -/
def stW : EngineState := ((process noCfg linesW).getD ([], initState)).2

/-- The final engine state of the `traceC1` run. -/
def stC6 : EngineState := ((process noCfg traceC1).getD ([], initState)).2

/-! ## Theorems -/

/-- C1 (counterexample).  In the window-threshold scenario — exactly 3
failed-login lines for one user at 0s, 5s, 10s, each within 20 seconds of
its neighbor, each containing "Failed", none authorized or banned, followed
by a 4th identical line — the program does not produce the claimed outcome
sequence `[Benign, Benign, FrequencyBreach, AlreadyFlagged]`: the helper
counts timestamp pairs, so 3 lines give at most 2 counted pairs and the
third line stays `Benign`, and the flag table is never set, so the fourth
line cannot be `AlreadyFlagged`. -/
theorem window_threshold_C1_counterexample :
    (process noCfg traceC1).map Prod.fst ≠
      some [Outcome.Benign, Outcome.Benign, Outcome.FrequencyBreach,
            Outcome.AlreadyFlagged] := by
  decide

/-- C1 (amended).  In the window-threshold scenario the third line returns
`Benign` (a breach needs a 4th close failed attempt, since the counter counts
consecutive pairs), and the 4th identical line afterward returns
`FrequencyBreach`, not `AlreadyFlagged`. -/
theorem window_threshold_C1_amended :
    (process noCfg traceC1).map Prod.fst =
      some [Outcome.Benign, Outcome.Benign, Outcome.Benign,
            Outcome.FrequencyBreach] := by
  decide

/-- C2 (code bug, evaluated).  After the frequency breach on the 4th line,
the 5th line for the same user is classified `FrequencyBreach` again — the
frequency rule is re-evaluated and `AlreadyFlagged` is never returned —
and the user's flag-table entry is still `false`, because the assignment
`flagged[user] = true` in `process` is commented out in the source. -/
theorem flag_monotonicity_C2_eval :
    (process noCfg traceC2).map Prod.fst =
      some [Outcome.Benign, Outcome.Benign, Outcome.Benign,
            Outcome.FrequencyBreach, Outcome.FrequencyBreach]
    ∧ (process noCfg traceC2).map (fun r => r.2.flagged "1111]") =
        some (some false) := by
  exact ⟨by decide, by decide⟩

/-- C3 (counterexample).  A line containing an authorized-user token is not
always classified `Authorized`: the user field is extracted before the
authorization check, and for the line `"sshd"` (which contains the
authorized token `"sshd"`) the extraction `substr(find("sshd") + 5, 5)`
starts past the end of the line and raises `std::out_of_range`, so
processing aborts instead of returning `Authorized`. -/
theorem auth_precedence_C3_counterexample :
    isAuth "sshd" ["sshd"] = true
    ∧ processLine ⟨["sshd"], []⟩ initState "sshd" = none := by
  exact ⟨rfl, rfl⟩

/-- C3 (amended).  For every line whose user extraction succeeds and whose
text contains an entry of the authorized-user set, processing returns
`Authorized` and only increments the line counter: the flag table, the login
history, the hacking counter and the output are left unchanged, regardless
of any banned-IP match or pending frequency state. -/
theorem auth_precedence_C3 (cfg : Config) (st : EngineState)
    (line user : String)
    (hu : extractUser line = some user)
    (ha : isAuth line cfg.authUser = true) :
    processLine cfg st line =
      some (Outcome.Authorized, { st with lineCount := st.lineCount + 1 }) := by
  simp only [processLine, hu, ha, if_pos]

/-- C3 (witness).  The first failed-login line matches the authorized token
`"root"` and the banned token `"1111"` at once; authorization wins and the
state is untouched apart from the line counter. -/
theorem auth_precedence_C3_witness :
    processLine authCfg initState failLine1 =
      some (Outcome.Authorized, { initState with lineCount := 1 }) := by
  exact auth_precedence_C3 authCfg initState failLine1 "1111]" rfl rfl

/-- C4.  Whenever the scan examines a consecutive pair that fails the
20-second test or the line lacks "Failed", the user's stored history
collapses to the single most recent timestamp (not merely the offending
pair), the counter resets to 0, and the loop continues at the next index;
the stored history after the whole scan is exactly that one entry. -/
theorem history_collapse_C4 (user line : String) (temp : List Int)
    (log : Log) (fuel i check : Nat)
    (hpair : i + 1 < temp.length)
    (hfail : ¬ ((temp.getD (i + 1) 0 - temp.getD i 0).natAbs < 20
                ∧ strContains line "Failed" = true)) :
    checkLogHelperGo user line (fuel + 1) i check temp log =
      checkLogHelperGo user line fuel (i + 1) 0 [temp.getLastD 0]
        (logUpdate log user [temp.getLastD 0])
    ∧ (checkLogHelperGo user line (fuel + 1) i check temp log).2 user =
        some [temp.getLastD 0] := by
  have hi : i < temp.length := Nat.lt_of_succ_lt hpair
  have hstep : checkLogHelperGo user line (fuel + 1) i check temp log =
      checkLogHelperGo user line fuel (i + 1) 0 [temp.getLastD 0]
        (logUpdate log user [temp.getLastD 0]) := by
    simp only [checkLogHelperGo, if_pos hi, if_pos hpair, if_neg hfail]
  refine ⟨hstep, ?_⟩
  rw [hstep]
  cases fuel with
  | zero => simp [checkLogHelperGo, logUpdate]
  | succ f =>
    have hstop : ¬ (i + 1 < ([temp.getLastD 0] : List Int).length) := by
      simp
    simp [checkLogHelperGo, hstop, logUpdate]

/-- C4 (witness).  With history `[0, 100]` and a line without "Failed", the
pair at index 0 fails the tests and the stored history for `"u"` collapses
to `[100]`. -/
theorem history_collapse_C4_witness :
    checkLogHelperGo "u" "x" 2 0 0 [0, 100] (fun _ => none) =
      checkLogHelperGo "u" "x" 1 1 0 [100]
        (logUpdate (fun _ => none) "u" [100])
    ∧ (checkLogHelperGo "u" "x" 2 0 0 [0, 100] (fun _ => none)).2 "u" =
        some [100] := by
  exact history_collapse_C4 "u" "x" [0, 100] (fun _ => none) 1 0 0
    (by decide) (by decide)

/-- C5.  Whenever the breach counter is about to exceed 2 — a qualifying
pair is observed with the counter already at 2 or more — the scan returns
`true` immediately and the user's stored history becomes the input history
with exactly its oldest timestamp removed. -/
theorem breach_slide_C5 (user line : String) (temp : List Int) (log : Log)
    (fuel i check : Nat)
    (_hstored : log user = some temp)
    (hpair : i + 1 < temp.length)
    (hok : (temp.getD (i + 1) 0 - temp.getD i 0).natAbs < 20
           ∧ strContains line "Failed" = true)
    (hc : 2 < check + 1) :
    checkLogHelperGo user line (fuel + 1) i check temp log =
      (true, logUpdate log user (temp.drop 1)) := by
  have hi : i < temp.length := Nat.lt_of_succ_lt hpair
  simp only [checkLogHelperGo, if_pos hi, if_pos hpair, if_pos hok, if_pos hc]

/-- C5 (witness).  With stored history `[0, 5, 10, 10]`, counter 2 and the
qualifying pair at index 2 of a "Failed" line, the scan returns `true` and
stores `[5, 10, 10]`. -/
theorem breach_slide_C5_witness :
    checkLogHelperGo "u" failLine3 4 2 2 [0, 5, 10, 10] logW =
      (true, logUpdate logW "u" [5, 10, 10]) := by
  exact breach_slide_C5 "u" failLine3 [0, 5, 10, 10] logW 3 2 2 rfl
    (by decide) (by decide) (by decide)

/-- A successful per-line step implies the user extraction succeeded. -/
theorem processLine_extract_some (cfg : Config) (st : EngineState)
    (line : String) (p : Outcome × EngineState)
    (h : processLine cfg st line = some p) :
    ∃ user, extractUser line = some user := by
  cases he : extractUser line with
  | none => unfold processLine at h; rw [he] at h; exact absurd h (by simp)
  | some user => exact ⟨user, rfl⟩

/-- Inversion of one step of the data loop on a non-empty line. -/
theorem processData_cons_inv (cfg : Config) (st : EngineState) (line : String)
    (rest : List String) (r : List Outcome × EngineState)
    (hline : ¬ line = "")
    (h : processData cfg (line :: rest) st = some r) :
    ∃ o st1 os st2, processLine cfg st line = some (o, st1)
      ∧ processData cfg rest st1 = some (os, st2) ∧ r = (o :: os, st2) := by
  unfold processData at h
  rw [if_neg hline] at h
  cases hp : processLine cfg st line with
  | none => simp [hp] at h
  | some p =>
    obtain ⟨o, st1⟩ := p
    simp only [hp] at h
    cases hd : processData cfg rest st1 with
    | none => simp [hd] at h
    | some q =>
      obtain ⟨os, st2⟩ := q
      simp only [hd] at h
      exact ⟨o, st1, os, st2, rfl, hd, (Option.some_inj.mp h).symm⟩

/-- C10.  The user field is `line.substr(line.find("sshd") + 5, 5)` with the
`find` result narrowed to `int`: when `"sshd"` is absent the start index is
`4` (`npos` narrowed to `-1`, plus 5); when the start index is within the
line, the user is the up-to-5 characters from there; extraction raises
`out_of_range` exactly when the start index exceeds the line length; and
every data line consumed by an error-free run satisfies that bound. -/
theorem user_extract_C10 :
    (∀ line : String, listFind? line.toList "sshd".toList = none →
        userStart line = 4)
    ∧ (∀ line : String, line.toList.length ≥ userStart line →
        extractUser line =
          some (String.mk ((line.toList.drop (userStart line)).take 5)))
    ∧ (∀ line : String, extractUser line = none ↔
        line.toList.length < userStart line)
    ∧ (∀ (cfg : Config) (st : EngineState) (ls : List String)
        (r : List Outcome × EngineState), processData cfg ls st = some r →
        ∀ l ∈ ls.takeWhile (fun x => x ≠ ""),
          userStart l ≤ l.toList.length) := by
  refine ⟨?_, ?_, ?_, ?_⟩
  · intro line hfind
    unfold userStart
    rw [hfind]
  · intro line hlen
    unfold extractUser csubstr
    rw [if_neg (by omega)]
  · intro line
    unfold extractUser csubstr
    constructor
    · intro h
      by_contra hlt
      rw [if_neg hlt] at h
      exact absurd h (by simp)
    · intro h
      rw [if_pos h]
  · intro cfg st ls
    induction ls generalizing st with
    | nil => intro r _ l hl; simp at hl
    | cons line rest ih =>
      intro r h l hl
      rw [List.takeWhile_cons] at hl
      by_cases hline : line = ""
      · rw [if_neg (by simp [hline])] at hl
        simp at hl
      · rw [if_pos (by simp [hline])] at hl
        obtain ⟨o, st1, os, st2, hp, hd, _⟩ :=
          processData_cons_inv cfg st line rest r hline h
        cases hl with
        | head =>
          obtain ⟨user, hu⟩ :=
            processLine_extract_some cfg st line (o, st1) hp
          have : ¬ (line.toList.length < userStart line) := by
            intro hlt
            unfold extractUser csubstr at hu
            rw [if_pos hlt] at hu
            exact absurd hu (by simp)
          omega
        | tail _ hmem => exact ih st1 (os, st2) hd l hmem

/-- C10 (witness).  The line `"abc"` has no `"sshd"`, so the start index is
4, which exceeds the length 3, and the extraction raises. -/
theorem user_extract_C10_witness :
    userStart "abc" = 4 ∧ extractUser "abc" = none := by
  exact ⟨user_extract_C10.1 "abc" rfl,
    (user_extract_C10.2.2.1 "abc").mpr (by decide)⟩

/-- When no stored flag is `true`, `isFlag` reports `false`. -/
theorem isFlag_false_of_inv (user : String) (f : FlagMap)
    (hinv : ∀ u, f u ≠ some true) : (isFlag user f).1 = false := by
  unfold isFlag
  cases hf : f user with
  | none => rfl
  | some b =>
    cases b with
    | false => rfl
    | true => exact absurd hf (hinv user)

/-- `isFlag` only ever inserts `false`, so it preserves the all-false
invariant of the flagged map. -/
theorem isFlag_snd_inv (user : String) (f : FlagMap)
    (hinv : ∀ u, f u ≠ some true) :
    ∀ u, (isFlag user f).2 u ≠ some true := by
  unfold isFlag
  cases hf : f user with
  | none =>
    intro u
    simp only [flagUpdate]
    split
    · simp
    · exact hinv u
  | some b => exact hinv

/-- One line keeps the flagged map free of `true` values and never yields
`AlreadyFlagged` (the assignment `flagged[user] = true` is commented out in
the source, and `isFlag` never reports a flag that is not stored). -/
theorem processLine_flag_inv (cfg : Config) (st : EngineState) (line : String)
    (o : Outcome) (st' : EngineState)
    (hinv : ∀ u, st.flagged u ≠ some true)
    (h : processLine cfg st line = some (o, st')) :
    (∀ u, st'.flagged u ≠ some true) ∧ o ≠ Outcome.AlreadyFlagged := by
  obtain ⟨user, hu⟩ := processLine_extract_some cfg st line (o, st') h
  simp only [processLine, hu] at h
  split_ifs at h with ha hb hf hc
  · obtain ⟨rfl, rfl⟩ := by simpa using h
    exact ⟨hinv, by simp⟩
  · obtain ⟨rfl, rfl⟩ := by simpa using h
    exact ⟨hinv, by simp⟩
  · have := isFlag_false_of_inv user st.flagged hinv
    rw [this] at hf
    exact absurd hf (by simp)
  · obtain ⟨rfl, rfl⟩ := by simpa using h
    exact ⟨isFlag_snd_inv user st.flagged hinv, by simp⟩
  · obtain ⟨rfl, rfl⟩ := by simpa using h
    exact ⟨isFlag_snd_inv user st.flagged hinv, by simp⟩

/-- The data loop keeps the flagged map free of `true` values and never
produces an `AlreadyFlagged` outcome. -/
theorem processData_flag_inv (cfg : Config) :
    ∀ (ls : List String) (st : EngineState) (outs : List Outcome)
      (st' : EngineState), (∀ u, st.flagged u ≠ some true) →
      processData cfg ls st = some (outs, st') →
      (∀ u, st'.flagged u ≠ some true) ∧ Outcome.AlreadyFlagged ∉ outs := by
  intro ls
  induction ls with
  | nil =>
    intro st outs st' hinv h
    unfold processData at h
    obtain ⟨rfl, rfl⟩ := by simpa using h.symm
    exact ⟨hinv, by simp⟩
  | cons line rest ih =>
    intro st outs st' hinv h
    by_cases hline : line = ""
    · unfold processData at h
      rw [if_pos hline] at h
      obtain ⟨rfl, rfl⟩ := by simpa using h.symm
      exact ⟨hinv, by simp⟩
    · obtain ⟨o, st1, os, st2, hp, hd, hr⟩ :=
        processData_cons_inv cfg st line rest (outs, st') hline h
      have h1 := processLine_flag_inv cfg st line o st1 hinv hp
      have h2 := ih st1 os st2 h1.1 hd
      have hr1 : outs = o :: os := congrArg Prod.fst hr
      have hr2 : st' = st2 := congrArg Prod.snd hr
      rw [hr1, hr2]
      refine ⟨h2.1, ?_⟩
      simp only [List.mem_cons, not_or]
      exact ⟨fun hx => h1.2 hx.symm, h2.2⟩

/-- C9 (implicit).  The flagged map never holds `true`: for every input
stream, every stored flag value in the final state is `false` or absent and
the `AlreadyFlagged` branch of `process` is never taken; moreover `isFlag`
returns `false` on every call against such a map. -/
theorem flag_never_true_C9 :
    (∀ (cfg : Config) (lines : List String) (outs : List Outcome)
        (st : EngineState), process cfg lines = some (outs, st) →
        (∀ u, st.flagged u ≠ some true) ∧ Outcome.AlreadyFlagged ∉ outs)
    ∧ (∀ (user : String) (f : FlagMap), (∀ v, f v ≠ some true) →
        (isFlag user f).1 = false) := by
  constructor
  · intro cfg lines outs st h
    unfold process at h
    cases hd : processData cfg (dropHeader lines) initState with
    | none => rw [hd] at h; exact absurd h (by simp)
    | some q =>
      obtain ⟨os, st0⟩ := q
      simp only [hd] at h
      have h' := Option.some_inj.mp h
      have ho : os = outs := congrArg Prod.fst h'
      have hs := congrArg Prod.snd h'
      have hstart : ∀ u, initState.flagged u ≠ some true := by
        intro u; simp [initState]
      have hmain := processData_flag_inv cfg (dropHeader lines) initState os
        st0 hstart hd
      dsimp only at hs
      rw [← ho, ← hs]
      exact ⟨fun u => hmain.1 u, hmain.2⟩
  · exact isFlag_false_of_inv

/-- C9 (witness).  A concrete one-line run has no `AlreadyFlagged`
outcome. -/
theorem flag_never_true_C9_witness :
    Outcome.AlreadyFlagged ∉ [Outcome.Benign] :=
  (flag_never_true_C9.1 noCfg linesW [Outcome.Benign] stW rfl).2

/-- A list is a `isPrefixOf` of itself followed by anything. -/
theorem isPrefixOf_self_append (p rest : List Char) :
    p.isPrefixOf (p ++ rest) = true := by
  induction p with
  | nil => simp [List.isPrefixOf]
  | cons c cs ih => simp [List.isPrefixOf, ih]

/-- A string starts with any of its leading segments. -/
theorem strStartsWith_append (p rest : String) :
    strStartsWith (p ++ rest) p = true := by
  simp only [strStartsWith, String.toList, String.data_append]
  exact isPrefixOf_self_append _ _

/-- The banned-IP message starts with "Hacking due to ". -/
theorem startsWith_banned (line : String) :
    strStartsWith ("Hacking due to banned IP. Line: " ++ line)
      "Hacking due to " = true := by
  rw [show ("Hacking due to banned IP. Line: " : String)
      = "Hacking due to " ++ "banned IP. Line: " from rfl,
    String.append_assoc]
  exact strStartsWith_append _ _

/-- The frequency message starts with "Hacking due to ". -/
theorem startsWith_frequency (line : String) :
    strStartsWith ("Hacking due to frequency. Line: " ++ line)
      "Hacking due to " = true := by
  rw [show ("Hacking due to frequency. Line: " : String)
      = "Hacking due to " ++ "frequency. Line: " from rfl,
    String.append_assoc]
  exact strStartsWith_append _ _

/-- A "Hacking due to " message is not a summary line. -/
theorem hack_not_processed (s : String)
    (h : strStartsWith s "Hacking due to " = true) :
    strStartsWith s "Processed " = false := by
  unfold strStartsWith at h ⊢
  cases hs : String.toList s with
  | nil =>
    rw [hs] at h
    exact absurd h (by decide)
  | cons c cs =>
    rw [show ("Hacking due to " : String).toList
        = 'H' :: ("acking due to " : String).toList from rfl] at h
    rw [show ("Processed " : String).toList
        = 'P' :: ("rocessed " : String).toList from rfl]
    rw [hs] at h
    rw [List.isPrefixOf_cons₂] at h
    simp only [Bool.and_eq_true, beq_iff_eq] at h
    obtain ⟨rfl, -⟩ := h
    rw [List.isPrefixOf_cons₂,
      show (('P' : Char) == 'H') = false from rfl, Bool.false_and]

/-- The summary text starts with "Processed ". -/
theorem summary_starts (lc ha : Nat) :
    strStartsWith (summaryText lc ha) "Processed " = true := by
  unfold summaryText
  rw [String.append_assoc, String.append_assoc, String.append_assoc]
  exact strStartsWith_append _ _

/-- The reason-3 call of `processHelper` emits exactly the summary text. -/
theorem processHelper_three (line : String) (ha lc : Nat) :
    processHelper 3 line ha lc = ([summaryText lc ha], 1) := rfl

/-- One line adds 1 to the line counter, adds 1 to the hacking counter
exactly for a hacking outcome, and appends only "Hacking due to "
messages to the output. -/
theorem processLine_counts (cfg : Config) (st : EngineState) (line : String)
    (o : Outcome) (st' : EngineState)
    (h : processLine cfg st line = some (o, st')) :
    st'.lineCount = st.lineCount + 1
    ∧ st'.hackAtt = st.hackAtt + (if isHackOutcome o then 1 else 0)
    ∧ ∃ body, st'.output = st.output ++ body
        ∧ ∀ s ∈ body, strStartsWith s "Hacking due to " = true := by
  obtain ⟨user, hu⟩ := processLine_extract_some cfg st line (o, st') h
  simp only [processLine, hu] at h
  split_ifs at h with ha hb hf hc
  · obtain ⟨rfl, rfl⟩ := by simpa using h
    exact ⟨rfl, by simp [isHackOutcome], [], by simp, by simp⟩
  · obtain ⟨rfl, rfl⟩ := by simpa using h
    refine ⟨rfl, by simp [isHackOutcome, processHelper], ?_⟩
    exact ⟨["Hacking due to banned IP. Line: " ++ line],
      by simp [processHelper],
      by simpa using startsWith_banned line⟩
  · obtain ⟨rfl, rfl⟩ := by simpa using h
    refine ⟨rfl, by simp [isHackOutcome, processHelper], ?_⟩
    exact ⟨["Hacking due to banned IP. Line: " ++ line],
      by simp [processHelper],
      by simpa using startsWith_banned line⟩
  · obtain ⟨rfl, rfl⟩ := by simpa using h
    refine ⟨rfl, by simp [isHackOutcome, processHelper], ?_⟩
    exact ⟨["Hacking due to frequency. Line: " ++ line],
      by simp [processHelper],
      by simpa using startsWith_frequency line⟩
  · obtain ⟨rfl, rfl⟩ := by simpa using h
    exact ⟨rfl, by simp [isHackOutcome], [], by simp, by simp⟩

/-- The data loop counts one processed line per non-empty line before the
first empty one, one hacking attempt per hacking outcome, and writes only
"Hacking due to " messages. -/
theorem processData_counts (cfg : Config) :
    ∀ (ls : List String) (st : EngineState) (outs : List Outcome)
      (st' : EngineState), processData cfg ls st = some (outs, st') →
      st'.lineCount = st.lineCount + (ls.takeWhile (fun x => x ≠ "")).length
      ∧ st'.hackAtt = st.hackAtt + (outs.filter isHackOutcome).length
      ∧ ∃ body, st'.output = st.output ++ body
          ∧ ∀ s ∈ body, strStartsWith s "Hacking due to " = true := by
  intro ls
  induction ls with
  | nil =>
    intro st outs st' h
    unfold processData at h
    obtain ⟨rfl, rfl⟩ := by simpa using h.symm
    exact ⟨by simp, by simp, [], by simp, by simp⟩
  | cons line rest ih =>
    intro st outs st' h
    by_cases hline : line = ""
    · unfold processData at h
      rw [if_pos hline] at h
      obtain ⟨rfl, rfl⟩ := by simpa using h.symm
      refine ⟨by simp [hline], by simp, [], by simp, by simp⟩
    · obtain ⟨o, st1, os, st2, hp, hd, hr⟩ :=
        processData_cons_inv cfg st line rest (outs, st') hline h
      have h1 := processLine_counts cfg st line o st1 hp
      have h2 := ih st1 os st2 hd
      have hr1 : outs = o :: os := congrArg Prod.fst hr
      have hr2 : st' = st2 := congrArg Prod.snd hr
      obtain ⟨h1lc, h1ha, body1, h1out, h1msg⟩ := h1
      obtain ⟨h2lc, h2ha, body2, h2out, h2msg⟩ := h2
      rw [hr1, hr2]
      refine ⟨?_, ?_, body1 ++ body2, ?_, ?_⟩
      · rw [h2lc, h1lc, List.takeWhile_cons, if_pos (by simp [hline])]
        simp only [List.length_cons]
        omega
      · rw [h2ha, h1ha, List.filter_cons]
        by_cases hho : isHackOutcome o = true
        · rw [if_pos hho, if_pos hho]
          simp [Nat.add_comm, Nat.add_assoc, Nat.add_left_comm]
        · rw [if_neg hho, if_neg hho]
          simp
      · rw [h2out, h1out, List.append_assoc]
      · intro s hsmem
        rcases List.mem_append.mp hsmem with hm | hm
        · exact h1msg s hm
        · exact h2msg s hm

/-- C7.  The line counter equals the number of non-empty data lines after
the header block, the hacking counter equals the number of `BannedIP`,
`AlreadyFlagged` and `FrequencyBreach` outcomes, and the output holds
exactly one summary line, carrying those two values. -/
theorem counters_summary_C7 (cfg : Config) (lines : List String)
    (outs : List Outcome) (st : EngineState)
    (h : process cfg lines = some (outs, st)) :
    st.lineCount = ((dropHeader lines).takeWhile (fun x => x ≠ "")).length
    ∧ st.hackAtt = (outs.filter isHackOutcome).length
    ∧ st.output.filter (fun s => strStartsWith s "Processed ") =
        [summaryText st.lineCount st.hackAtt] := by
  unfold process at h
  cases hd : processData cfg (dropHeader lines) initState with
  | none => rw [hd] at h; exact absurd h (by simp)
  | some q =>
    obtain ⟨os, st0⟩ := q
    simp only [hd, processHelper_three] at h
    have h' := Option.some_inj.mp h
    have ho : os = outs := congrArg Prod.fst h'
    have hs := congrArg Prod.snd h'
    dsimp only at hs
    obtain ⟨hlc, hha, body, hout, hbody⟩ :=
      processData_counts cfg (dropHeader lines) initState os st0 hd
    rw [show initState.lineCount = 0 from rfl] at hlc
    rw [show initState.hackAtt = 0 from rfl] at hha
    rw [show initState.output = [] from rfl] at hout
    rw [← ho, ← hs]
    refine ⟨by simpa using hlc, by simpa using hha, ?_⟩
    show (st0.output ++ [summaryText st0.lineCount st0.hackAtt]).filter
        (fun s => strStartsWith s "Processed ") = _
    rw [List.filter_append]
    have hb : st0.output.filter (fun s => strStartsWith s "Processed ")
        = [] := by
      rw [List.filter_eq_nil_iff]
      intro a hamem
      rw [hout] at hamem
      simp only [List.nil_append] at hamem
      simp [hack_not_processed a (hbody a hamem)]
    rw [hb]
    simp [summary_starts]

/-- C7 (witness).  The single-data-line run processed 1 line, found 0
hacking attempts, and its output holds exactly the matching summary
line. -/
theorem counters_summary_C7_witness :
    stW.lineCount = ((dropHeader linesW).takeWhile (fun x => x ≠ "")).length
    ∧ stW.hackAtt = (([Outcome.Benign].filter isHackOutcome)).length
    ∧ stW.output.filter (fun s => strStartsWith s "Processed ") =
        [summaryText stW.lineCount stW.hackAtt] :=
  counters_summary_C7 noCfg linesW [Outcome.Benign] stW rfl

/-- On a 3-entry history the scan either leaves the stored map untouched or
collapses the user's entry to the most recent timestamp. -/
theorem go_result_len3 (user line : String) (a b c : Int) (log : Log) :
    (checkLogHelperGo user line 3 0 0 [a, b, c] log).2 = log
    ∨ (checkLogHelperGo user line 3 0 0 [a, b, c] log).2 =
        logUpdate log user [c] := by
  by_cases h0 : ((b - a).natAbs < 20 ∧ strContains line "Failed" = true)
  · by_cases h1 : ((c - b).natAbs < 20 ∧ strContains line "Failed" = true)
    · left
      simp [checkLogHelperGo, h0, h1]
    · right
      have hA : ¬ ((c - b).natAbs < 20) := fun hcb => h1 ⟨hcb, h0.2⟩
      simp [checkLogHelperGo, h0, h1, hA]
  · right
    simp [checkLogHelperGo, h0]

/-- On a 4-entry history the scan either collapses the user's entry to the
most recent timestamp or erases the oldest entry on a breach. -/
theorem go_result_len4 (user line : String) (a b c d : Int) (log : Log) :
    (checkLogHelperGo user line 4 0 0 [a, b, c, d] log).2 =
        logUpdate log user [d]
    ∨ (checkLogHelperGo user line 4 0 0 [a, b, c, d] log).2 =
        logUpdate log user [b, c, d] := by
  by_cases h0 : ((b - a).natAbs < 20 ∧ strContains line "Failed" = true)
  · by_cases h1 : ((c - b).natAbs < 20 ∧ strContains line "Failed" = true)
    · by_cases h2 : ((d - c).natAbs < 20 ∧ strContains line "Failed" = true)
      · right
        simp [checkLogHelperGo, h0, h1, h2]
      · left
        have hA : ¬ ((d - c).natAbs < 20) := fun hdc => h2 ⟨hdc, h0.2⟩
        simp [checkLogHelperGo, h0, h1, h2, hA]
    · left
      have hA : ¬ ((c - b).natAbs < 20) := fun hcb => h1 ⟨hcb, h0.2⟩
      simp [checkLogHelperGo, h0, h1, hA]
  · left
    simp [checkLogHelperGo, h0]

/-- Updating the same key twice keeps only the second value. -/
theorem logUpdate_overwrite (log : Log) (user : String) (v w : List Int) :
    logUpdate (logUpdate log user v) user w = logUpdate log user w := by
  funext u
  simp only [logUpdate]
  by_cases hu : u = user
  · rw [if_pos hu, if_pos hu]
  · rw [if_neg hu, if_neg hu, if_neg hu]

/-- Updating one entry with a short list preserves the length bound. -/
theorem logUpdate_bound (log : Log) (user : String) (v : List Int)
    (hinv : ∀ u l, log u = some l → l.length ≤ 3) (hv : v.length ≤ 3) :
    ∀ u l, logUpdate log user v u = some l → l.length ≤ 3 := by
  intro u l hl
  simp only [logUpdate] at hl
  by_cases hu : u = user
  · rw [if_pos hu] at hl
    cases hl
    exact hv
  · rw [if_neg hu] at hl
    exact hinv u l hl

/-- `checkLog` keeps every stored history at 3 entries or fewer. -/
theorem checkLog_bound (line user : String) (log : Log)
    (hinv : ∀ u l, log u = some l → l.length ≤ 3) :
    ∀ u l, (checkLog line log user).2 u = some l → l.length ≤ 3 := by
  intro u l hl
  unfold checkLog at hl
  cases hlu : log user with
  | none =>
    simp only [hlu] at hl
    exact logUpdate_bound log user _ hinv (by simp) u l hl
  | some prev =>
    have hprev : prev.length ≤ 3 := hinv user prev hlu
    simp only [hlu] at hl
    rcases prev with _ | ⟨a, _ | ⟨b, _ | ⟨c, rest⟩⟩⟩
    · simp only [List.nil_append] at hl
      rw [if_pos (by simp)] at hl
      exact logUpdate_bound log user _ hinv (by simp) u l hl
    · simp only [List.cons_append, List.nil_append] at hl
      rw [if_pos (by simp)] at hl
      exact logUpdate_bound log user _ hinv (by simp) u l hl
    · simp only [List.cons_append, List.nil_append] at hl
      rw [if_neg (by simp)] at hl
      rw [show ([a, b, toSeconds (strTake line 14)] : List Int).length = 3
        from rfl] at hl
      rcases go_result_len3 user line a b
          (toSeconds (strTake line 14))
          (logUpdate log user [a, b, toSeconds (strTake line 14)]) with
        hg | hg
      · rw [hg] at hl
        exact logUpdate_bound log user _ hinv (by simp) u l hl
      · rw [hg] at hl
        exact logUpdate_bound _ user _
          (logUpdate_bound log user _ hinv (by simp)) (by simp) u l hl
    · have hrest : rest = [] := by
        simp only [List.length_cons] at hprev
        exact List.eq_nil_of_length_eq_zero (by omega)
      subst hrest
      simp only [List.cons_append, List.nil_append] at hl
      rw [if_neg (by simp)] at hl
      rw [show ([a, b, c, toSeconds (strTake line 14)] : List Int).length = 4
        from rfl] at hl
      rcases go_result_len4 user line a b c
          (toSeconds (strTake line 14))
          (logUpdate log user [a, b, c, toSeconds (strTake line 14)]) with
        hg | hg
      · rw [hg, logUpdate_overwrite] at hl
        exact logUpdate_bound log user _ hinv (by simp) u l hl
      · rw [hg, logUpdate_overwrite] at hl
        exact logUpdate_bound log user _ hinv (by simp) u l hl

/-- One processed line keeps every stored history at 3 entries or fewer. -/
theorem processLine_log_bound (cfg : Config) (st : EngineState)
    (line : String) (o : Outcome) (st' : EngineState)
    (hinv : ∀ u l, st.log u = some l → l.length ≤ 3)
    (h : processLine cfg st line = some (o, st')) :
    ∀ u l, st'.log u = some l → l.length ≤ 3 := by
  obtain ⟨user, hu⟩ := processLine_extract_some cfg st line (o, st') h
  simp only [processLine, hu] at h
  split_ifs at h with ha hb hf hc
  · obtain ⟨rfl, rfl⟩ := by simpa using h
    exact hinv
  · obtain ⟨rfl, rfl⟩ := by simpa using h
    exact hinv
  · obtain ⟨rfl, rfl⟩ := by simpa using h
    exact hinv
  · obtain ⟨rfl, rfl⟩ := by simpa using h
    exact checkLog_bound line user st.log hinv
  · obtain ⟨rfl, rfl⟩ := by simpa using h
    exact checkLog_bound line user st.log hinv

/-- The data loop keeps every stored history at 3 entries or fewer. -/
theorem processData_log_bound (cfg : Config) :
    ∀ (ls : List String) (st : EngineState) (outs : List Outcome)
      (st' : EngineState), (∀ u l, st.log u = some l → l.length ≤ 3) →
      processData cfg ls st = some (outs, st') →
      ∀ u l, st'.log u = some l → l.length ≤ 3 := by
  intro ls
  induction ls with
  | nil =>
    intro st outs st' hinv h
    unfold processData at h
    obtain ⟨rfl, rfl⟩ := by simpa using h.symm
    exact hinv
  | cons line rest ih =>
    intro st outs st' hinv h
    by_cases hline : line = ""
    · unfold processData at h
      rw [if_pos hline] at h
      obtain ⟨rfl, rfl⟩ := by simpa using h.symm
      exact hinv
    · obtain ⟨o, st1, os, st2, hp, hd, hr⟩ :=
        processData_cons_inv cfg st line rest (outs, st') hline h
      have h1 := processLine_log_bound cfg st line o st1 hinv hp
      have hr2 : st' = st2 := congrArg Prod.snd hr
      rw [hr2]
      exact ih st1 os st2 h1 hd

/-- C6.  After every processed run — hence after every processed line, over
every input sequence — every user's stored login history holds at most 3
timestamps: old entries are pruned once a window closes. -/
theorem bounded_history_C6 (cfg : Config) (lines : List String)
    (outs : List Outcome) (st : EngineState)
    (h : process cfg lines = some (outs, st)) :
    ∀ u l, st.log u = some l → l.length ≤ 3 := by
  unfold process at h
  cases hd : processData cfg (dropHeader lines) initState with
  | none => rw [hd] at h; exact absurd h (by simp)
  | some q =>
    obtain ⟨os, st0⟩ := q
    simp only [hd] at h
    have h' := Option.some_inj.mp h
    have hs := congrArg Prod.snd h'
    dsimp only at hs
    have hstart : ∀ u l, initState.log u = some l → l.length ≤ 3 := by
      intro u l hl
      exact absurd hl (by simp [initState])
    have hmain := processData_log_bound cfg (dropHeader lines) initState os
      st0 hstart hd
    rw [← hs]
    exact fun u l hl => hmain u l hl

/-- C6 (witness).  The history stored for the user of the 4-line trace has
3 entries, within the bound. -/
theorem bounded_history_C6_witness :
    ([1622518325, 1622518330, 1622518330] : List Int).length ≤ 3 :=
  bounded_history_C6 noCfg traceC1
    [Outcome.Benign, Outcome.Benign, Outcome.Benign, Outcome.FrequencyBreach]
    stC6 rfl "1111]" [1622518325, 1622518330, 1622518330] rfl

/-- A decimal digit character is a digit. -/
theorem digit_isDigit (d : Nat) (hd : d < 10) :
    (Char.ofNat (48 + d)).isDigit = true := by
  interval_cases d <;> decide

/-- The code of a decimal digit character. -/
theorem digit_toNat (d : Nat) (hd : d < 10) :
    (Char.ofNat (48 + d)).toNat = 48 + d := by
  interval_cases d <;> decide

/-- A decimal digit character is not whitespace. -/
theorem digit_not_ws (d : Nat) (hd : d < 10) :
    (Char.ofNat (48 + d)).isWhitespace = false := by
  interval_cases d <;> decide

/-- The numeric directive reads exactly the two digits of `n < 100`. -/
theorem parseNum2_twoDigits (n : Nat) (hn : n < 100) (rest : List Char) :
    parseNum2 (twoDigits n ++ rest) = some (n, rest) := by
  have h1 : n / 10 < 10 := by omega
  have h2 : n % 10 < 10 := by omega
  unfold twoDigits parseNum2
  simp only [List.cons_append, List.nil_append, digit_isDigit _ h1,
    digit_isDigit _ h2, if_true]
  rw [digit_toNat _ h1, digit_toNat _ h2]
  have hv : (48 + n / 10 - 48) * 10 + (48 + n % 10 - 48) = n := by omega
  rw [hv]

/-- The numeric directive at the end of the input. -/
theorem parseNum2_twoDigits_nil (n : Nat) (hn : n < 100) :
    parseNum2 (twoDigits n) = some (n, []) := by
  have := parseNum2_twoDigits n hn []
  rwa [List.append_nil] at this

/-- A format space consumes a space character. -/
theorem skipWS_space (l : List Char) : skipWS (' ' :: l) = skipWS l := rfl

/-- A format space stops at the first digit of a 2-digit field. -/
theorem skipWS_twoDigits (n : Nat) (hn : n < 100) (l : List Char) :
    skipWS (twoDigits n ++ l) = twoDigits n ++ l := by
  have h1 : n / 10 < 10 := by omega
  unfold twoDigits
  simp only [List.cons_append, List.nil_append]
  simp [skipWS, digit_not_ws _ h1]

/-- The colon literal consumes a colon. -/
theorem expectColon_cons (r : List Char) : expectColon (':' :: r) = some r :=
  rfl

/-- On a well-formed stamp whose month name has been recognized, `strptime`
recovers every field. -/
theorem strptime_stamp (mon day hour minute sec : Nat)
    (hd : day < 100) (hh : hour < 100) (hm : minute < 100) (hs : sec < 100)
    (hpm : parseMonth (stampChars mon day hour minute sec) =
      some (mon, stampTail day hour minute sec)) :
    strptimeModel (stampChars mon day hour minute sec) =
      ⟨mon, day, hour, minute, sec⟩ := by
  unfold strptimeModel
  rw [hpm]
  unfold stampTail
  simp only [skipWS_space, skipWS_twoDigits day hd,
    skipWS_twoDigits hour hh, parseNum2_twoDigits day hd,
    parseNum2_twoDigits hour hh, parseNum2_twoDigits minute hm,
    parseNum2_twoDigits_nil sec hs, expectColon_cons]

/-- On a well-formed stamp, `toSeconds` is the civil-to-epoch conversion
for year 2021. -/
theorem toSeconds_stamp (mon day hour minute sec : Nat)
    (hd : day < 100) (hh : hour < 100) (hm : minute < 100) (hs : sec < 100)
    (hpm : parseMonth (stampChars mon day hour minute sec) =
      some (mon, stampTail day hour minute sec)) :
    toSeconds (String.mk (stampChars mon day hour minute sec)) =
      1609459200
        + ((daysBeforeMonth false mon : Int) + (day : Int) - 1) * 86400
        + (hour : Int) * 3600 + (minute : Int) * 60 + (sec : Int) := by
  unfold toSeconds
  rw [show (String.mk (stampChars mon day hour minute sec)).toList
      = stampChars mon day hour minute sec from rfl]
  rw [strptime_stamp mon day hour minute sec hd hh hm hs hpm]
  unfold mktimeModel
  rw [show daysSinceEpochYear 2021 = 18628 from by decide]
  rw [show isLeapYear 2021 = false from by decide]
  ring

/-- C8.  The frequency check parses the leading 14 characters of the line
as the timestamp field (the first timestamp it records for a user is
`toSeconds` of that prefix), and on a well-formed fixed-width prefix
"Mon DD HH:MM:SS" with the default reference year 2021, `toSeconds` returns
the epoch seconds of that calendar time. -/
theorem timestamp_parse_C8 :
    (∀ (line user : String) (log : Log), log user = none →
        (checkLog line log user).2 user = some [toSeconds (strTake line 14)])
    ∧ (∀ mon day hour minute sec : Nat, mon < 12 → 1 ≤ day → day ≤ 31 →
        hour < 24 → minute < 60 → sec < 60 →
        toSeconds (String.mk (stampChars mon day hour minute sec)) =
          1609459200
            + ((daysBeforeMonth false mon : Int) + (day : Int) - 1) * 86400
            + (hour : Int) * 3600 + (minute : Int) * 60 + (sec : Int)) := by
  constructor
  · intro line user log hlu
    unfold checkLog
    simp only [hlu]
    simp [logUpdate]
  · intro mon day hour minute sec hmon hd1 hd31 hh hm hs
    have hpm : parseMonth (stampChars mon day hour minute sec) =
        some (mon, stampTail day hour minute sec) := by
      interval_cases mon <;> rfl
    exact toSeconds_stamp mon day hour minute sec (by omega) (by omega)
      (by omega) (by omega) hpm

/-- C8 (witness).  A fresh user's first recorded timestamp comes from the
14-character prefix, and "Jun 10 03:32:36" converts to the epoch seconds of
2021-06-10 03:32:36 UTC. -/
theorem timestamp_parse_C8_witness :
    (checkLog failLine1 (fun _ => none) "1111]").2 "1111]" =
      some [toSeconds (strTake failLine1 14)]
    ∧ toSeconds (String.mk (stampChars 5 10 3 32 36)) = 1623295956 := by
  refine ⟨timestamp_parse_C8.1 failLine1 "1111]" (fun _ => none) rfl, ?_⟩
  rw [timestamp_parse_C8.2 5 10 3 32 36 (by decide) (by decide) (by decide)
    (by decide) (by decide) (by decide)]
  decide

end HackDetect
